/-
Verification of the surface-side ROV control station (Akeina/surface).

This file gives a shallow embedding of the parts of the repository that the
verified properties talk about:

* `src/control/controller.py` : the MinMax normalisation helper (`normalise`,
  which truncates with Python `int(...)`), the axis and trigger setters with
  their sensitivity (hysteresis) condition, the getters, and the idle value.
  Python floats are modelled with exact rationals; for the integer inputs in
  the hardware ranges used here the double-precision computation and the exact
  one produce the same truncated integer (the exact quotients are at distance
  at least 1/13107 from any integer they do not hit exactly).
* `src/communication/video_stream.py` : the frame-reassembly step
  `VideoStream._handle_data`, modelled as a function on an explicit state
  (accumulated buffer plus the latest-frame slot) that consumes one received
  chunk, with raised exceptions modelled by `Except.error`.  The external
  unpickler `dill.loads` is abstracted: a decoded frame is represented by the
  raw payload bytes that were fed to it, and the fact that unpickling an empty
  byte string raises `EOFError` (an exception type the handler does not catch)
  is modelled by the `eofError` result.
* `src/communication/data_manager.py` : the store access `DataManager.get`
  and the safeguarding pipeline `_safeguard_transmission_data`, over exact
  real arithmetic.  `math.sqrt` raising `ValueError` on a negative argument is
  modelled by `safeguardScale` returning `none`.
-/
import Mathlib

namespace Surface

/-! ## Controller (`src/control/controller.py`) -/

/-- Python `int(...)` applied to a real number: truncation toward zero. -/
def pyInt (q : ℚ) : ℤ := if q < 0 then -⌊-q⌋ else ⌊q⌋

/-- `normalise` from `src/control/controller.py`: MinMax normalisation of
`value` from `[currentMin, currentMax]` to `[intendedMin, intendedMax]`,
truncated to an integer with Python `int(...)`. -/
def normalise (value currentMin currentMax intendedMin intendedMax : ℚ) : ℤ :=
  pyInt (intendedMin + (value - currentMin) * (intendedMax - intendedMin)
    / (currentMax - currentMin))

/-- `Controller._AXIS_MAX`. -/
def AXIS_MAX : ℤ := 32767

/-- `Controller._AXIS_MIN`. -/
def AXIS_MIN : ℤ := -32768

/-- `Controller._axis_max` (operational upper bound). -/
def axisGoalMax : ℤ := 1900

/-- `Controller._axis_min` (operational lower bound). -/
def axisGoalMin : ℤ := 1100

/-- `Controller._TRIGGER_MAX`. -/
def TRIGGER_MAX : ℤ := 255

/-- `Controller._TRIGGER_MIN`. -/
def TRIGGER_MIN : ℤ := 0

/-- `Controller._trigger_max`. -/
def triggerGoalMax : ℤ := 1900

/-- `Controller._trigger_min`. -/
def triggerGoalMin : ℤ := 1500

/-- `Controller._SENSITIVITY`. -/
def SENSITIVITY : ℤ := 100

/-- The axis setters (`left_axis_x`, `left_axis_y`, `right_axis_x`,
`right_axis_y` are all identical): the new raw `value` replaces the stored
raw value `old` iff it equals a hardware extreme or differs from the last
accepted raw value by at least the sensitivity threshold. -/
def axisSetter (old value : ℤ) : ℤ :=
  if value = AXIS_MAX ∨ value = AXIS_MIN ∨ SENSITIVITY ≤ |old - value| then value
  else old

/-- The trigger setters (`left_trigger`, `right_trigger`): the raw value is
stored unconditionally. -/
def triggerSetter (_old value : ℤ) : ℤ := value

/-- The axis getters: MinMax normalisation of the stored raw value from the
hardware range to the operational range. -/
def axisGet (raw : ℤ) : ℤ :=
  normalise raw AXIS_MIN AXIS_MAX axisGoalMin axisGoalMax

/-- The `right_trigger` getter. -/
def rightTriggerGet (raw : ℤ) : ℤ :=
  normalise raw TRIGGER_MIN TRIGGER_MAX triggerGoalMin triggerGoalMax

/-- The `left_trigger` getter (normalises into the reflected range
`[trigger_min, 2 * trigger_min - trigger_max]`). -/
def leftTriggerGet (raw : ℤ) : ℤ :=
  normalise raw TRIGGER_MIN TRIGGER_MAX triggerGoalMin
    (2 * triggerGoalMin - triggerGoalMax)

/-- `Controller._idle`: the idle PWM baseline,
`normalise(0, AXIS_MIN, AXIS_MAX, axis_min, axis_max)`. -/
def idleValue : ℤ := normalise 0 AXIS_MIN AXIS_MAX axisGoalMin axisGoalMax

/-! ## Video stream (`src/communication/video_stream.py`) -/

/-- `VideoStream._end_payload`: the ASCII bytes of
"Frame was successfully sent". -/
def endPayload : List Nat :=
  [70, 114, 97, 109, 101, 32, 119, 97, 115, 32, 115, 117, 99, 99, 101, 115,
   115, 102, 117, 108, 108, 121, 32, 115, 101, 110, 116]

/-- The state owned by one `VideoStream` instance: the accumulated partial
frame bytes (`_frame_partial`) and the latest decoded frame slot (`_frame`).
A decoded frame is represented by the payload bytes handed to the unpickler. -/
structure VSState where
  frameBuf : List Nat
  frame : Option (List Nat)
  deriving Repr, DecidableEq

/-- Exceptions that can escape one `_handle_data` step.  `dataError` is the
class-level `DataError` raised on an empty buffer (peer closed); `eofError`
models the `EOFError` that `dill.loads` raises on an empty byte string, which
the handler does not catch. -/
inductive VSErr where
  | dataError
  | eofError
  deriving Repr, DecidableEq

/-- One step of `VideoStream._handle_data`: append the received `chunk` to the
buffer; raise `DataError` if the buffer is empty; if the buffer tail matches
the end marker, unpickle everything before the marker as the new frame (the
code tests the whole buffer, not the pre-marker slice, before unpickling, so
an empty pre-marker slice reaches `dill.loads` and raises `EOFError`), reset
the buffer and send the acknowledgement. -/
def handleData (st : VSState) (chunk : List Nat) : Except VSErr VSState :=
  if st.frameBuf ++ chunk = [] then .error .dataError
  else if endPayload.isSuffixOf (st.frameBuf ++ chunk) then
    if st.frameBuf ++ chunk ≠ [] then
      if (st.frameBuf ++ chunk).take
          ((st.frameBuf ++ chunk).length - endPayload.length) = [] then
        .error .eofError
      else .ok ⟨[], some ((st.frameBuf ++ chunk).take
          ((st.frameBuf ++ chunk).length - endPayload.length))⟩
    else .ok ⟨[], none⟩
  else .ok ⟨st.frameBuf ++ chunk, st.frame⟩

/-- Feeding a sequence of received chunks through `_handle_data` one at a
time; a raised exception aborts the rest of the sequence. -/
def handleChunks (st : VSState) : List (List Nat) → Except VSErr VSState
  | [] => .ok st
  | c :: cs =>
    match handleData st c with
    | .error e => .error e
    | .ok st2 => handleChunks st2 cs

/-! ## Data manager (`src/communication/data_manager.py`)

Numeric values are modelled with exact real arithmetic.  The cache is a
partial map from string keys to values; only numeric values matter to the
safeguarding pipeline, so the store maps keys to real numbers. -/

open scoped Classical

/-- The quadratic coefficient `a` from `DataManager._init_safeguards`. -/
def ampA : ℝ := 0.00009537964

/-- The quadratic coefficient `b`. -/
def ampB : ℝ := -0.2864872

/-- The quadratic coefficient `c`. -/
def ampC : ℝ := 214.9513

/-- `DataManager._amp`: the approximate current drawn by command value `x`,
`a * x^2 + b * x + c`. -/
noncomputable def amp (x : ℝ) : ℝ := ampA * x ^ 2 + ampB * x + ampC

/-- The discriminant `b^2 - 4*a*(c - t)` handed to `sqrt` inside
`DataManager._safeguard_scale`. -/
noncomputable def discOf (t : ℝ) : ℝ := ampB ^ 2 - 4 * ampA * (ampC - t)

/-- `DataManager._safeguard_scale`: both quadratic-formula roots of
`amp x = t`.  Python `math.sqrt` raises `ValueError` on a negative argument
and nothing on the call path catches `ValueError`; that exception is
modelled by `none`. -/
noncomputable def safeguardScale (t : ℝ) : Option (ℝ × ℝ) :=
  if discOf t < 0 then none
  else some ((-ampB + Real.sqrt (discOf t)) / (2 * ampA),
             (-ampB - Real.sqrt (discOf t)) / (2 * ampA))

/-- `DataManager._AMP_LIMIT`. -/
def AMP_LIMIT : ℝ := 99

/-- `DataManager._IDLE_VALUES`. -/
def IDLE_VALUES : Set ℝ := {1500}

/-- `DataManager._transmission_keys`. -/
def transmissionKeys : List String :=
  ["Thr_FP", "Thr_FS", "Thr_AP", "Thr_AS", "Thr_TFP", "Thr_TFS", "Thr_TAP",
   "Thr_TAS", "Mot_R", "Mot_G", "Mot_F", "LED_M"]

/-- `DataManager._SAFEGUARD_KEYS`. -/
def SAFEGUARD_KEYS : List String :=
  ["Thr_FP", "Thr_FS", "Thr_AP", "Thr_AS", "Thr_TFP", "Thr_TFS", "Thr_TAP",
   "Thr_TAS", "Mot_F", "Mot_G"]

/-- The cache `DataManager._data`: a partial map from keys to values,
`none` meaning the key is absent. -/
abbrev Store := String → Option ℝ

/-- The first step of `_safeguard_transmission_data`: fetch the selected
data, or the transmission-specific dictionary if no args were passed. -/
def transmitFetch (store : Store) (args : List String) : Store := fun k =>
  match args with
  | [] => if k ∈ transmissionKeys then store k else none
  | _ :: _ => if k ∈ args ∧ k ∈ transmissionKeys then store k else none

/-- The `safeguard_data` selection inside `_safeguard_transmission_data`:
restrict the fetched data to the safeguarded keys. -/
def safeguardSelect (data : Store) : Store := fun k =>
  if k ∈ SAFEGUARD_KEYS then data k else none

/-- The safeguarded slice of the transmit projection of a store. -/
def sgOf (store : Store) (args : List String) : Store :=
  safeguardSelect (transmitFetch store args)

/-- The total predicted current of a safeguarded map: the sum of
`amp value` over all present safeguarded keys (absent keys contribute 0). -/
noncomputable def currentOf (sg : Store) : ℝ :=
  (SAFEGUARD_KEYS.map fun k => (sg k).elim 0 amp).sum

/-- The body of the rescaling loop of `_safeguard_transmission_data` for one
value: solve the quadratic for the de-rated current `amp v * factor` (the
roots are computed before the idle check, so a `sqrt` failure propagates even
for idle values); keep idle values unchanged, otherwise take the root closer
to the original value (ties go to the first root). -/
noncomputable def rescaleValue (factor v : ℝ) : Option ℝ :=
  match safeguardScale (amp v * factor) with
  | none => none
  | some p => some (if v ∈ IDLE_VALUES then v
      else if |v - p.1| ≤ |v - p.2| then p.1 else p.2)

/-- `DataManager._safeguard_transmission_data`: fetch the transmit data,
restrict it to the safeguarded keys, and if its total predicted current
exceeds the amp limit, rescale every present non-idle value to de-rate the
total to the limit.  The returned map is the (possibly rescaled) safeguarded
slice; a `none` result models an exception escaping the function. -/
noncomputable def safeguardTransmissionData (store : Store) (args : List String) :
    Option Store :=
  if AMP_LIMIT < currentOf (sgOf store args) then
    if ∀ k v, sgOf store args k = some v →
        rescaleValue (AMP_LIMIT / currentOf (sgOf store args)) v ≠ none then
      some fun k => (sgOf store args k).bind
        (rescaleValue (AMP_LIMIT / currentOf (sgOf store args)))
    else none
  else some (sgOf store args)

/-- `DataManager.get`: the full store (or the safeguarded transmit
projection) when no args are passed, otherwise the requested present keys
(safeguarded and intersected with the whitelist when `transmit` is set). -/
noncomputable def dmGet (store : Store) (args : List String) (transmit : Bool) :
    Option Store :=
  if transmit then safeguardTransmissionData store args
  else some (match args with
    | [] => store
    | _ :: _ => fun k => if k ∈ args then store k else none)

/-- The minimum of the current parabola, attained at its vertex. -/
noncomputable def minAmp : ℝ := ampC - ampB ^ 2 / (4 * ampA)

/-- The abscissa of the vertex of the current parabola. -/
noncomputable def vertexX : ℝ := -ampB / (2 * ampA)

/-! ## Concrete stores used as inputs below -/

/-- A store holding only the non-safeguarded transmit key `Mot_R`. -/
def storeMot : Store := fun k => if k = "Mot_R" then some 1500 else none

/-- A store driving the total predicted current far over the limit with one
huge command while a second safeguarded key sits at the idle value. -/
def storeIdleMix : Store := fun k =>
  if k = "Thr_FP" then some 10000 else if k = "Thr_FS" then some 1500 else none

/-- A store driving the total predicted current far over the limit with one
huge command while a second safeguarded key sits just above the idle value
(and below the vertex of the current parabola). -/
def storeNearIdle : Store := fun k =>
  if k = "Thr_FP" then some 10000 else if k = "Thr_FS" then some 1501 else none

/-! ## Helper lemmas about the current parabola -/

lemma ampA_pos : (0:ℝ) < ampA := by norm_num [ampA]

lemma ampA_ne : (ampA:ℝ) ≠ 0 := ne_of_gt ampA_pos

lemma minAmp_neg : minAmp < 0 := by norm_num [minAmp, ampA, ampB, ampC]

lemma amp_sub_minAmp (v : ℝ) :
    4 * ampA * (amp v - minAmp) = (2 * ampA * v + ampB) ^ 2 := by
  have ha := ampA_ne
  field_simp [amp, minAmp]
  ring

lemma minAmp_le_amp (v : ℝ) : minAmp ≤ amp v := by
  nlinarith [amp_sub_minAmp v, sq_nonneg (2 * ampA * v + ampB), ampA_pos]

lemma disc_eq (t : ℝ) : discOf t = 4 * ampA * (t - minAmp) := by
  have ha := ampA_ne
  field_simp [discOf, minAmp]
  ring

lemma disc_pos (v f : ℝ) (h0 : 0 < f) (h1 : f < 1) : 0 < discOf (amp v * f) := by
  rw [disc_eq]
  have h2 := minAmp_le_amp v
  have h3 := minAmp_neg
  have key : 0 < amp v * f - minAmp := by
    nlinarith [mul_nonneg h0.le (sub_nonneg.mpr h2),
      mul_pos (neg_pos.mpr h3) (sub_pos.mpr h1)]
  exact mul_pos (by norm_num [ampA]) key

lemma amp_root (s t : ℝ) (hs : s ^ 2 = discOf t) :
    amp ((-ampB + s) / (2 * ampA)) = t := by
  have ha := ampA_ne
  rw [discOf] at hs
  rw [amp]
  field_simp
  linear_combination 2 * ampA ^ 2 * hs

lemma amp_root_sub (s t : ℝ) (hs : s ^ 2 = discOf t) :
    amp ((-ampB - s) / (2 * ampA)) = t := by
  have : (-ampB - s) = (-ampB + (-s)) := by ring
  rw [this]
  exact amp_root (-s) t (by rw [neg_pow] at *; simpa using hs)

lemma abs_closer (x d : ℝ) (hd : 0 < d) : |x - d| ≤ |x + d| ↔ 0 ≤ x := by
  rw [← sq_le_sq]
  constructor
  · intro h; nlinarith
  · intro h; nlinarith

lemma root_add_eq (t : ℝ) : (-ampB + Real.sqrt (discOf t)) / (2 * ampA)
    = vertexX + Real.sqrt (discOf t) / (2 * ampA) := by
  rw [vertexX]; ring

lemma root_sub_eq (t : ℝ) : (-ampB - Real.sqrt (discOf t)) / (2 * ampA)
    = vertexX - Real.sqrt (discOf t) / (2 * ampA) := by
  rw [vertexX]; ring

lemma closer_char (v t : ℝ) (h : 0 < discOf t) :
    (|v - (-ampB + Real.sqrt (discOf t)) / (2 * ampA)| ≤
     |v - (-ampB - Real.sqrt (discOf t)) / (2 * ampA)|) ↔ vertexX ≤ v := by
  have hs : 0 < Real.sqrt (discOf t) := Real.sqrt_pos.mpr h
  have hd : 0 < Real.sqrt (discOf t) / (2 * ampA) :=
    div_pos hs (by norm_num [ampA])
  rw [root_add_eq, root_sub_eq]
  have e1 : v - (vertexX + Real.sqrt (discOf t) / (2 * ampA))
      = (v - vertexX) - Real.sqrt (discOf t) / (2 * ampA) := by ring
  have e2 : v - (vertexX - Real.sqrt (discOf t) / (2 * ampA))
      = (v - vertexX) + Real.sqrt (discOf t) / (2 * ampA) := by ring
  rw [e1, e2, abs_closer _ _ hd, sub_nonneg]

/-- Full behaviour of one rescaling step when the de-rating factor lies in
`(0, 1)`: it never raises, keeps idle values, and otherwise returns a value
whose current is exactly the de-rated current and which lies on the same
side of the parabola vertex as the input. -/
lemma rescale_spec (f v : ℝ) (h0 : 0 < f) (h1 : f < 1) :
    ∃ w, rescaleValue f v = some w ∧
      ((v ∈ IDLE_VALUES ∧ w = v) ∨
       (v ∉ IDLE_VALUES ∧ amp w = amp v * f ∧
         (vertexX ≤ v → vertexX < w) ∧ (v < vertexX → w < vertexX))) := by
  have hdp := disc_pos v f h0 h1
  have hs2 : Real.sqrt (discOf (amp v * f)) ^ 2 = discOf (amp v * f) :=
    Real.sq_sqrt hdp.le
  have hspos : 0 < Real.sqrt (discOf (amp v * f)) := Real.sqrt_pos.mpr hdp
  have hscale : safeguardScale (amp v * f) =
      some ((-ampB + Real.sqrt (discOf (amp v * f))) / (2 * ampA),
            (-ampB - Real.sqrt (discOf (amp v * f))) / (2 * ampA)) := by
    rw [safeguardScale, if_neg (not_lt.mpr hdp.le)]
  by_cases hidle : v ∈ IDLE_VALUES
  · refine ⟨v, ?_, Or.inl ⟨hidle, rfl⟩⟩
    simp only [rescaleValue, hscale, if_pos hidle]
  · by_cases hcl : |v - (-ampB + Real.sqrt (discOf (amp v * f))) / (2 * ampA)| ≤
        |v - (-ampB - Real.sqrt (discOf (amp v * f))) / (2 * ampA)|
    · refine ⟨(-ampB + Real.sqrt (discOf (amp v * f))) / (2 * ampA), ?_,
        Or.inr ⟨hidle, amp_root _ _ hs2, ?_, ?_⟩⟩
      · simp only [rescaleValue, hscale, if_neg hidle, if_pos hcl]
      · intro _
        rw [root_add_eq]
        have hd : 0 < Real.sqrt (discOf (amp v * f)) / (2 * ampA) :=
          div_pos hspos (by norm_num [ampA])
        linarith
      · intro hv
        exact absurd ((closer_char v _ hdp).mp hcl) (not_le.mpr hv)
    · refine ⟨(-ampB - Real.sqrt (discOf (amp v * f))) / (2 * ampA), ?_,
        Or.inr ⟨hidle, amp_root_sub _ _ hs2, ?_, ?_⟩⟩
      · simp only [rescaleValue, hscale, if_neg hidle, if_neg hcl]
      · intro hv
        exact absurd hv (not_le.mpr (not_le.mp ((closer_char v _ hdp).not.mp hcl)))
      · intro _
        rw [root_sub_eq]
        have hd : 0 < Real.sqrt (discOf (amp v * f)) / (2 * ampA) :=
          div_pos hspos (by norm_num [ampA])
        linarith

/-- The de-rating factor used in the over-budget branch lies in `(0, 1)`. -/
lemma factor_mem (c : ℝ) (hcur : AMP_LIMIT < c) :
    0 < AMP_LIMIT / c ∧ AMP_LIMIT / c < 1 := by
  have hcpos : 0 < c := lt_trans (by norm_num [AMP_LIMIT]) hcur
  exact ⟨div_pos (by norm_num [AMP_LIMIT]) hcpos, (div_lt_one hcpos).mpr hcur⟩

/-- The safeguarding pipeline never returns an exception: on every reachable
call of `_safeguard_scale` the discriminant is strictly positive. -/
lemma safeguard_isSome (store : Store) (args : List String) :
    safeguardTransmissionData store args ≠ none := by
  by_cases hcur : AMP_LIMIT < currentOf (sgOf store args)
  · have hfa : ∀ k v, sgOf store args k = some v →
        rescaleValue (AMP_LIMIT / currentOf (sgOf store args)) v ≠ none := by
      intro k v _
      obtain ⟨hf0, hf1⟩ := factor_mem _ hcur
      obtain ⟨w, hw, -⟩ := rescale_spec _ v hf0 hf1
      simp [hw]
    rw [safeguardTransmissionData, if_pos hcur, if_pos hfa]
    simp
  · rw [safeguardTransmissionData, if_neg hcur]
    simp

/-! ## Claims about the data manager -/

/-- Claim C1 (code bug witness).  `get` with `transmit=True` is documented to
return the fields to be sent over the network, i.e. the transmit projection
(the spec says: the safeguarded values merged with any non-safeguarded
transmit keys such as `Mot_R` and `LED_M`).  The code fetches the full
transmit projection into `data` — here `transmitFetch storeMot []` does hold
`Mot_R` — but then returns only the `safeguard_data` subset, so `Mot_R` is
silently dropped from every outbound message. -/
theorem C1_transmit_drops_nonsafeguarded :
    storeMot "Mot_R" = some 1500 ∧
    "Mot_R" ∈ transmissionKeys ∧ "Mot_R" ∉ SAFEGUARD_KEYS ∧
    transmitFetch storeMot [] "Mot_R" = some 1500 ∧
    dmGet storeMot [] true = some (sgOf storeMot []) ∧
    sgOf storeMot [] "Mot_R" = none := by
  refine ⟨by simp [storeMot], by simp [transmissionKeys], by simp [SAFEGUARD_KEYS],
    by simp [transmitFetch, transmissionKeys, storeMot], ?_, ?_⟩
  · have hcur : currentOf (sgOf storeMot []) = 0 := by
      simp [currentOf, sgOf, safeguardSelect, transmitFetch, SAFEGUARD_KEYS,
        transmissionKeys, storeMot]
    rw [dmGet, if_pos rfl, safeguardTransmissionData, if_neg]
    rw [hcur]
    norm_num [AMP_LIMIT]
  · simp [sgOf, safeguardSelect, SAFEGUARD_KEYS]

/-- Claim C3.  Whenever the total predicted current of the safeguarded slice
does not exceed the amp limit, the pipeline returns the safeguarded slice
itself: every safeguarded value passes through unchanged. -/
theorem C3_under_budget_identity (store : Store) (args : List String)
    (h : currentOf (sgOf store args) ≤ AMP_LIMIT) :
    safeguardTransmissionData store args = some (sgOf store args) := by
  rw [safeguardTransmissionData, if_neg (not_lt.mpr h)]

/-- Witness for C3: a store with one thruster at idle is under budget and
passes through. -/
theorem C3_witness :
    currentOf (sgOf storeMot []) ≤ AMP_LIMIT ∧
    safeguardTransmissionData storeMot [] = some (sgOf storeMot []) := by
  have h : currentOf (sgOf storeMot []) ≤ AMP_LIMIT := by
    have hcur : currentOf (sgOf storeMot []) = 0 := by
      simp [currentOf, sgOf, safeguardSelect, transmitFetch, SAFEGUARD_KEYS,
        transmissionKeys, storeMot]
    rw [hcur]; norm_num [AMP_LIMIT]
  exact ⟨h, C3_under_budget_identity storeMot [] h⟩

/-- Claim C4.  A safeguarded value lying in the idle set is returned
unchanged by the pipeline, whether or not the total predicted current
exceeds the limit. -/
theorem C4_idle_frame (store : Store) (args : List String) (k : String) (v : ℝ)
    (hk : sgOf store args k = some v) (hv : v ∈ IDLE_VALUES) :
    (safeguardTransmissionData store args).elim False fun out => out k = some v := by
  by_cases hcur : AMP_LIMIT < currentOf (sgOf store args)
  · obtain ⟨hf0, hf1⟩ := factor_mem _ hcur
    have hfa : ∀ k v, sgOf store args k = some v →
        rescaleValue (AMP_LIMIT / currentOf (sgOf store args)) v ≠ none := by
      intro k' v' _
      obtain ⟨w, hw, -⟩ := rescale_spec _ v' hf0 hf1
      simp [hw]
    rw [safeguardTransmissionData, if_pos hcur, if_pos hfa]
    simp only [Option.elim]
    rw [hk]
    obtain ⟨w, hw, hsp⟩ := rescale_spec _ v hf0 hf1
    rcases hsp with ⟨-, hwv⟩ | ⟨hnot, -⟩
    · rw [Option.some_bind, hw, hwv]
    · exact absurd hv hnot
  · rw [safeguardTransmissionData, if_neg hcur]
    simpa using hk

/-- Witness for C4: on a store with one thruster at the idle value 1500, the
pipeline keeps it at 1500. -/
theorem C4_witness :
    sgOf storeIdleMix [] "Thr_FS" = some 1500 ∧ (1500:ℝ) ∈ IDLE_VALUES ∧
    (safeguardTransmissionData storeIdleMix []).elim False
      fun out => out "Thr_FS" = some 1500 := by
  have hk : sgOf storeIdleMix [] "Thr_FS" = some 1500 := by
    simp [sgOf, safeguardSelect, transmitFetch, SAFEGUARD_KEYS, transmissionKeys,
      storeIdleMix]
  have hv : (1500:ℝ) ∈ IDLE_VALUES := by simp [IDLE_VALUES]
  exact ⟨hk, hv, C4_idle_frame storeIdleMix [] "Thr_FS" 1500 hk hv⟩

/-- Claim C5, amended: the code contains no explicit discriminant guard (a
negative discriminant makes `math.sqrt` raise an uncaught `ValueError`, see
the counterexample), but on every reachable rescaling call the discriminant
is strictly positive, so evaluating the safeguarded transmit projection never
raises for any store contents. -/
theorem C5_projection_never_raises :
    ∀ (store : Store) (args : List String),
      safeguardTransmissionData store args ≠ none :=
  fun store args => safeguard_isSome store args

/-- Counterexample for C5 as stated: nothing guards the discriminant — on a
target current below the parabola minimum (such as `-1`) the square root of
a negative number is taken, which raises `ValueError` (modelled by `none`),
an exception type no handler on the transport path catches. -/
theorem C5_counterexample : safeguardScale (-1) = none := by
  rw [safeguardScale, if_pos]
  norm_num [discOf, ampA, ampB, ampC]

/-- In the over-budget branch, every present safeguarded value rescales
without raising. -/
lemma rescale_ne_none (store : Store) (args : List String)
    (hcur : AMP_LIMIT < currentOf (sgOf store args)) :
    ∀ k v, sgOf store args k = some v →
      rescaleValue (AMP_LIMIT / currentOf (sgOf store args)) v ≠ none := by
  intro k v _
  obtain ⟨hf0, hf1⟩ := factor_mem _ hcur
  obtain ⟨w, hw, -⟩ := rescale_spec _ v hf0 hf1
  simp [hw]

/-- Claim C2, amended.  When the total predicted current exceeds the limit
and no safeguarded value lies in the idle set, the pipeline returns a map
whose total predicted current is exactly the limit, and every rescaled value
lies strictly on the same side of the vertex of the current parabola
(`vertexX = -b / (2a) ≈ 1501.8`, not the idle baseline 1500) as its input. -/
theorem C2_over_budget_rescaling (store : Store) (args : List String)
    (hcur : AMP_LIMIT < currentOf (sgOf store args))
    (hidle : ∀ k v, sgOf store args k = some v → v ∉ IDLE_VALUES) :
    (safeguardTransmissionData store args).elim False fun out =>
      currentOf out = AMP_LIMIT ∧
      ∀ k v w, sgOf store args k = some v → out k = some w →
        (vertexX ≤ v → vertexX < w) ∧ (v < vertexX → w < vertexX) := by
  obtain ⟨hf0, hf1⟩ := factor_mem _ hcur
  rw [safeguardTransmissionData, if_pos hcur, if_pos (rescale_ne_none store args hcur)]
  simp only [Option.elim]
  constructor
  · have hpt : ∀ k, ((sgOf store args k).bind
        (rescaleValue (AMP_LIMIT / currentOf (sgOf store args)))).elim 0 amp
        = ((sgOf store args k).elim 0 amp)
            * (AMP_LIMIT / currentOf (sgOf store args)) := by
      intro k
      cases hk : sgOf store args k with
      | none => simp
      | some v =>
        obtain ⟨w, hw, hsp⟩ := rescale_spec _ v hf0 hf1
        rcases hsp with ⟨hin, -⟩ | ⟨-, hampw, -, -⟩
        · exact absurd hin (hidle k v hk)
        · simp [hw, hampw]
    have hc0 : currentOf (sgOf store args) ≠ 0 :=
      (lt_trans (by norm_num [AMP_LIMIT]) hcur).ne'
    calc currentOf (fun k => (sgOf store args k).bind
            (rescaleValue (AMP_LIMIT / currentOf (sgOf store args))))
        = (SAFEGUARD_KEYS.map fun k => ((sgOf store args k).elim 0 amp)
            * (AMP_LIMIT / currentOf (sgOf store args))).sum := by
          rw [currentOf]
          exact congrArg List.sum (List.map_congr_left fun k _ => hpt k)
      _ = currentOf (sgOf store args) * (AMP_LIMIT / currentOf (sgOf store args)) := by
          rw [List.sum_map_mul_right, currentOf]
      _ = AMP_LIMIT := by rw [mul_comm]; exact div_mul_cancel₀ _ hc0
  · intro k v w hk hout
    rw [hk, Option.some_bind] at hout
    obtain ⟨w', hw', hsp⟩ := rescale_spec _ v hf0 hf1
    rw [hw', Option.some.injEq] at hout
    subst hout
    rcases hsp with ⟨hin, -⟩ | ⟨-, -, h1, h2⟩
    · exact absurd hin (hidle k v hk)
    · exact ⟨h1, h2⟩

/-- Witness for C2 (amended): a store with one huge command and one slightly
off-idle command, no idle values present. -/
theorem C2_over_budget_witness :
    AMP_LIMIT < currentOf (sgOf storeNearIdle []) ∧
    (safeguardTransmissionData storeNearIdle []).elim False fun out =>
      currentOf out = AMP_LIMIT ∧
      ∀ k v w, sgOf storeNearIdle [] k = some v → out k = some w →
        (vertexX ≤ v → vertexX < w) ∧ (v < vertexX → w < vertexX) := by
  have hcur : currentOf (sgOf storeNearIdle []) = amp 10000 + amp 1501 := by
    simp [currentOf, sgOf, safeguardSelect, transmitFetch, SAFEGUARD_KEYS,
      transmissionKeys, storeNearIdle]
  have hgt : AMP_LIMIT < currentOf (sgOf storeNearIdle []) := by
    rw [hcur]; norm_num [amp, ampA, ampB, ampC, AMP_LIMIT]
  have hidle : ∀ k v, sgOf storeNearIdle [] k = some v → v ∉ IDLE_VALUES := by
    intro k v h
    simp only [sgOf, safeguardSelect, transmitFetch] at h
    split at h
    · split at h
      · rw [storeNearIdle] at h
        split at h
        · rw [Option.some.injEq] at h
          subst h
          simp [IDLE_VALUES]
        · split at h
          · rw [Option.some.injEq] at h
            subst h
            simp [IDLE_VALUES]
          · exact absurd h (by simp)
      · exact absurd h (by simp)
    · exact absurd h (by simp)
  exact ⟨hgt, C2_over_budget_rescaling storeNearIdle [] hgt hidle⟩

/-- Counterexample for C2 as stated.  First half: with an idle value present
(`storeIdleMix` holds 10000 and the idle 1500) the rescaled total current is
not the budget, because the idle value keeps its original (nonzero) current
while only the others are de-rated.  Second half: the input 1501 lies above
the idle baseline 1500 but below the parabola vertex, and its rescaled value
drops strictly below 1500 — the sign of deviation from idle is not
preserved. -/
theorem C2_counterexample :
    (AMP_LIMIT < currentOf (sgOf storeIdleMix []) ∧
      (safeguardTransmissionData storeIdleMix []).elim False fun out =>
        currentOf out ≠ AMP_LIMIT) ∧
    (AMP_LIMIT < currentOf (sgOf storeNearIdle []) ∧
      sgOf storeNearIdle [] "Thr_FS" = some 1501 ∧
      (safeguardTransmissionData storeNearIdle []).elim False fun out =>
        (out "Thr_FS").elim False fun w => w < 1500) := by
  constructor
  · have hcur : currentOf (sgOf storeIdleMix []) = amp 10000 + amp 1500 := by
      simp [currentOf, sgOf, safeguardSelect, transmitFetch, SAFEGUARD_KEYS,
        transmissionKeys, storeIdleMix]
    have hgt : AMP_LIMIT < currentOf (sgOf storeIdleMix []) := by
      rw [hcur]; norm_num [amp, ampA, ampB, ampC, AMP_LIMIT]
    obtain ⟨hf0, hf1⟩ := factor_mem _ hgt
    refine ⟨hgt, ?_⟩
    rw [safeguardTransmissionData, if_pos hgt,
      if_pos (rescale_ne_none storeIdleMix [] hgt)]
    simp only [Option.elim]
    obtain ⟨wA, hwA, hspA⟩ := rescale_spec (AMP_LIMIT / currentOf (sgOf storeIdleMix []))
      10000 hf0 hf1
    have hampA : amp wA = amp 10000 * (AMP_LIMIT / currentOf (sgOf storeIdleMix [])) := by
      rcases hspA with ⟨hin, -⟩ | ⟨-, h, -, -⟩
      · exact absurd hin (by simp [IDLE_VALUES])
      · exact h
    obtain ⟨wB, hwB, hspB⟩ := rescale_spec (AMP_LIMIT / currentOf (sgOf storeIdleMix []))
      1500 hf0 hf1
    have hwBv : wB = 1500 := by
      rcases hspB with ⟨-, h⟩ | ⟨hnot, -⟩
      · exact h
      · exact absurd (by simp [IDLE_VALUES]) hnot
    rw [hcur] at hwA hwB
    have hsum : currentOf (fun k => (sgOf storeIdleMix [] k).bind
        (rescaleValue (AMP_LIMIT / currentOf (sgOf storeIdleMix [])))) = amp wA + amp wB := by
      simp [currentOf, sgOf, safeguardSelect, transmitFetch, SAFEGUARD_KEYS,
        transmissionKeys, storeIdleMix, hwA, hwB]
    rw [hsum, hampA, hwBv, hcur]
    norm_num [amp, ampA, ampB, ampC, AMP_LIMIT]
  · have hcur : currentOf (sgOf storeNearIdle []) = amp 10000 + amp 1501 := by
      simp [currentOf, sgOf, safeguardSelect, transmitFetch, SAFEGUARD_KEYS,
        transmissionKeys, storeNearIdle]
    have hgt : AMP_LIMIT < currentOf (sgOf storeNearIdle []) := by
      rw [hcur]; norm_num [amp, ampA, ampB, ampC, AMP_LIMIT]
    obtain ⟨hf0, hf1⟩ := factor_mem _ hgt
    have hsg : sgOf storeNearIdle [] "Thr_FS" = some 1501 := by
      simp [sgOf, safeguardSelect, transmitFetch, SAFEGUARD_KEYS, transmissionKeys,
        storeNearIdle]
    refine ⟨hgt, hsg, ?_⟩
    rw [safeguardTransmissionData, if_pos hgt,
      if_pos (rescale_ne_none storeNearIdle [] hgt)]
    simp only [Option.elim]
    have hdp : 0 < discOf (amp 1501 * (AMP_LIMIT / currentOf (sgOf storeNearIdle []))) :=
      disc_pos _ _ hf0 hf1
    have hscale : safeguardScale (amp 1501 * (AMP_LIMIT / currentOf (sgOf storeNearIdle []))) =
        some ((-ampB + Real.sqrt (discOf (amp 1501 *
                (AMP_LIMIT / currentOf (sgOf storeNearIdle []))))) / (2 * ampA),
              (-ampB - Real.sqrt (discOf (amp 1501 *
                (AMP_LIMIT / currentOf (sgOf storeNearIdle []))))) / (2 * ampA)) := by
      rw [safeguardScale, if_neg (not_lt.mpr hdp.le)]
    have hne : (1501:ℝ) ∉ IDLE_VALUES := by simp [IDLE_VALUES]
    have hbr : ¬ (|(1501:ℝ) - (-ampB + Real.sqrt (discOf (amp 1501 *
          (AMP_LIMIT / currentOf (sgOf storeNearIdle []))))) / (2 * ampA)| ≤
        |(1501:ℝ) - (-ampB - Real.sqrt (discOf (amp 1501 *
          (AMP_LIMIT / currentOf (sgOf storeNearIdle []))))) / (2 * ampA)|) := by
      rw [closer_char _ _ hdp]
      norm_num [vertexX, ampA, ampB]
    have hout : rescaleValue (AMP_LIMIT / currentOf (sgOf storeNearIdle [])) 1501 =
        some ((-ampB - Real.sqrt (discOf (amp 1501 *
          (AMP_LIMIT / currentOf (sgOf storeNearIdle []))))) / (2 * ampA)) := by
      simp only [rescaleValue, hscale]
      rw [if_neg hne, if_neg hbr]
    have hx0 : (0:ℝ) ≤ -ampB - 3000 * ampA := by norm_num [ampA, ampB]
    have hlb : -ampB - 3000 * ampA < Real.sqrt (discOf (amp 1501 *
        (AMP_LIMIT / currentOf (sgOf storeNearIdle [])))) := by
      rw [Real.lt_sqrt hx0, hcur]
      norm_num [discOf, amp, ampA, ampB, ampC, AMP_LIMIT]
    have hr1 : (-ampB - Real.sqrt (discOf (amp 1501 *
        (AMP_LIMIT / currentOf (sgOf storeNearIdle []))))) / (2 * ampA) < 1500 := by
      rw [div_lt_iff₀ (by norm_num [ampA] : (0:ℝ) < 2 * ampA)]
      nlinarith [hlb]
    rw [hsg, Option.some_bind, hout]
    simpa using hr1

/-- Claim C10.  The idle baseline of the controller, the integer MinMax
normalisation of raw 0 from `[-32768, 32767]` to `[1100, 1900]`, is exactly
1500, the unique member of the idle set of the data manager; and a rescaling
step maps the value 1500 to itself whenever it returns at all. -/
theorem C10_idle_agreement :
    idleValue = 1500 ∧ IDLE_VALUES = {(1500:ℝ)} ∧
    ∀ f w : ℝ, rescaleValue f 1500 = some w → w = 1500 := by
  refine ⟨?_, rfl, ?_⟩
  · norm_num [idleValue, normalise, pyInt, AXIS_MIN, AXIS_MAX, axisGoalMin,
      axisGoalMax]
  · intro f w h
    cases hs : safeguardScale (amp 1500 * f) with
    | none => rw [rescaleValue, hs] at h; exact absurd h (by simp)
    | some p =>
      rw [rescaleValue, hs] at h
      simp only [Option.some.injEq] at h
      rw [if_pos (by simp [IDLE_VALUES] : (1500:ℝ) ∈ IDLE_VALUES)] at h
      exact h.symm

/-- Witness for C10: a concrete rescaling call on the idle value succeeds
and returns it unchanged. -/
theorem C10_witness : rescaleValue 0 1500 = some 1500 ∧ (1500:ℝ) = 1500 := by
  have h : rescaleValue 0 1500 = some 1500 := by
    have hd : ¬ discOf (amp 1500 * 0) < 0 := by
      norm_num [discOf, amp, ampA, ampB, ampC]
    rw [rescaleValue, safeguardScale, if_neg hd]
    simp [IDLE_VALUES]
  exact ⟨h, C10_idle_agreement.2.2 0 1500 h⟩

/-! ## Claims about the input mapper -/

/-- A sequence of raw axis readings that all stay strictly inside the
sensitivity threshold of the last accepted raw value (and avoid the hardware
extremes) is rejected wholesale by the axis setter. -/
lemma axisSetter_foldl (old : ℤ) (vs : List ℤ)
    (h : ∀ v ∈ vs, v ≠ AXIS_MAX ∧ v ≠ AXIS_MIN ∧ |old - v| < SENSITIVITY) :
    vs.foldl axisSetter old = old := by
  induction vs with
  | nil => rfl
  | cons v tl ih =>
    have hv := h v (List.mem_cons_self v tl)
    have hstep : axisSetter old v = old := by
      rw [axisSetter, if_neg]
      rintro (h1 | h2 | h3)
      exacts [hv.1 h1, hv.2.1 h2, absurd h3 (not_le.mpr hv.2.2)]
    rw [List.foldl_cons, hstep]
    exact ih fun u hu => h u (List.mem_cons_of_mem v hu)

/-- Claim C6, amended.  Hysteresis is applied by the four axis setters only:
a sequence of readings that avoid the hardware extremes and differ from the
last accepted raw value by strictly less than the threshold leaves the raw
and normalised values unchanged, a hardware extreme always updates, and a
difference of at least (not strictly more than) the threshold updates.  The
trigger setters apply no hysteresis: every reading is stored
unconditionally. -/
theorem C6_hysteresis (old : ℤ) (vs : List ℤ)
    (h : ∀ v ∈ vs, v ≠ AXIS_MAX ∧ v ≠ AXIS_MIN ∧ |old - v| < SENSITIVITY) :
    (vs.foldl axisSetter old = old ∧
      axisGet (vs.foldl axisSetter old) = axisGet old) ∧
    (∀ o : ℤ, axisSetter o AXIS_MAX = AXIS_MAX ∧ axisSetter o AXIS_MIN = AXIS_MIN) ∧
    (∀ o v : ℤ, SENSITIVITY ≤ |o - v| → axisSetter o v = v) ∧
    (∀ o v : ℤ, triggerSetter o v = v) := by
  refine ⟨⟨axisSetter_foldl old vs h, by rw [axisSetter_foldl old vs h]⟩, ?_, ?_, ?_⟩
  · intro o
    exact ⟨by rw [axisSetter, if_pos (Or.inl rfl)],
      by rw [axisSetter, if_pos (Or.inr (Or.inl rfl))]⟩
  · intro o v hsv
    rw [axisSetter, if_pos (Or.inr (Or.inr hsv))]
  · intro o v
    rfl

/-- Witness for C6 (amended), at `old = 0` and three in-threshold readings. -/
theorem C6_witness :
    (∀ v ∈ [(50:ℤ), -50, 99],
      v ≠ AXIS_MAX ∧ v ≠ AXIS_MIN ∧ |(0:ℤ) - v| < SENSITIVITY) ∧
    (([(50:ℤ), -50, 99].foldl axisSetter 0 = 0 ∧
      axisGet ([(50:ℤ), -50, 99].foldl axisSetter 0) = axisGet 0) ∧
    (∀ o : ℤ, axisSetter o AXIS_MAX = AXIS_MAX ∧ axisSetter o AXIS_MIN = AXIS_MIN) ∧
    (∀ o v : ℤ, SENSITIVITY ≤ |o - v| → axisSetter o v = v) ∧
    (∀ o v : ℤ, triggerSetter o v = v)) := by
  have h : ∀ v ∈ [(50:ℤ), -50, 99],
      v ≠ AXIS_MAX ∧ v ≠ AXIS_MIN ∧ |(0:ℤ) - v| < SENSITIVITY := by decide
  exact ⟨h, C6_hysteresis 0 [50, -50, 99] h⟩

/-- Counterexample for C6 as stated.  First half: a reading differing from
the last accepted raw value by exactly the threshold (not strictly more) is
accepted by the axis setter and changes the normalised output.  Second half:
the trigger setters apply no hysteresis at all — a reading differing by 1
(far below the threshold, and not a hardware extreme) is stored and changes
the normalised output. -/
theorem C6_counterexample :
    (axisSetter 0 100 = 100 ∧ (100:ℤ) ≠ AXIS_MAX ∧ (100:ℤ) ≠ AXIS_MIN ∧
      ¬ SENSITIVITY < |(0:ℤ) - 100| ∧ axisGet 100 ≠ axisGet 0) ∧
    (triggerSetter 0 1 = 1 ∧ (1:ℤ) ≠ TRIGGER_MAX ∧ (1:ℤ) ≠ TRIGGER_MIN ∧
      |(0:ℤ) - 1| < SENSITIVITY ∧
      rightTriggerGet (triggerSetter 0 1) ≠ rightTriggerGet 0) := by
  refine ⟨⟨?_, by decide, by decide, by decide, ?_⟩,
    rfl, by decide, by decide, by decide, ?_⟩
  · rw [axisSetter, if_pos (Or.inr (Or.inr (by decide)))]
  · have ha : axisGet 100 = 1501 := by
      norm_num [axisGet, normalise, pyInt, AXIS_MIN, AXIS_MAX, axisGoalMin,
        axisGoalMax]
    have hb : axisGet 0 = 1500 := by
      norm_num [axisGet, normalise, pyInt, AXIS_MIN, AXIS_MAX, axisGoalMin,
        axisGoalMax]
    rw [ha, hb]
    decide
  · have ha : rightTriggerGet 1 = 1501 := by
      norm_num [rightTriggerGet, normalise, pyInt, TRIGGER_MIN, TRIGGER_MAX,
        triggerGoalMin, triggerGoalMax]
    have hb : rightTriggerGet 0 = 1500 := by
      norm_num [rightTriggerGet, normalise, pyInt, TRIGGER_MIN, TRIGGER_MAX,
        triggerGoalMin, triggerGoalMax]
    rw [triggerSetter, ha, hb]
    decide

/-- Python truncation of a rational lying between integer bounds. -/
lemma pyInt_bounds (q : ℚ) (lo hi : ℤ) (h0 : (0:ℚ) ≤ q) (hlo : (lo:ℚ) ≤ q)
    (hhi : q ≤ (hi:ℚ)) : lo ≤ pyInt q ∧ pyInt q ≤ hi := by
  rw [pyInt, if_neg (not_lt.mpr h0)]
  exact ⟨Int.le_floor.mpr hlo, le_trans (Int.floor_le_floor hhi) (by simp)⟩

/-- Claim C7, amended.  The axis getters contain no deadzone clamp: for every
stored raw value they return the plain MinMax normalisation (and on the
hardware range the result lies within the operational range). -/
theorem C7_getter_is_minmax (v : ℤ) (h1 : AXIS_MIN ≤ v) (h2 : v ≤ AXIS_MAX) :
    axisGet v = normalise v AXIS_MIN AXIS_MAX axisGoalMin axisGoalMax ∧
    axisGoalMin ≤ axisGet v ∧ axisGet v ≤ axisGoalMax := by
  refine ⟨rfl, ?_⟩
  rw [AXIS_MIN] at h1
  rw [AXIS_MAX] at h2
  have hv1 : (-32768:ℚ) ≤ (v:ℚ) := by exact_mod_cast h1
  have hv2 : (v:ℚ) ≤ 32767 := by exact_mod_cast h2
  have hget : axisGet v = pyInt (1100 + ((v:ℚ) + 32768) * 800 / 65535) := by
    rw [axisGet, normalise, AXIS_MIN, AXIS_MAX, axisGoalMin, axisGoalMax]
    congr 1
    push_cast
    norm_num
  have hlo : (1100:ℚ) ≤ 1100 + ((v:ℚ) + 32768) * 800 / 65535 := by
    have hnn : (0:ℚ) ≤ ((v:ℚ) + 32768) * 800 / 65535 :=
      div_nonneg (mul_nonneg (by linarith) (by norm_num)) (by norm_num)
    linarith
  have hhi : 1100 + ((v:ℚ) + 32768) * 800 / 65535 ≤ 1900 := by
    have hd : ((v:ℚ) + 32768) * 800 / 65535 ≤ 800 := by
      rw [div_le_iff₀ (by norm_num : (0:ℚ) < 65535)]
      nlinarith
    linarith
  rw [hget, axisGoalMin, axisGoalMax]
  exact pyInt_bounds _ 1100 1900 (by linarith) (by exact_mod_cast hlo)
    (by exact_mod_cast hhi)

/-- Witness for C7 (amended) at raw value `-1`. -/
theorem C7_witness :
    AXIS_MIN ≤ (-1:ℤ) ∧ (-1:ℤ) ≤ AXIS_MAX ∧
    (axisGet (-1) = normalise (-1) AXIS_MIN AXIS_MAX axisGoalMin axisGoalMax ∧
      axisGoalMin ≤ axisGet (-1) ∧ axisGet (-1) ≤ axisGoalMax) :=
  ⟨by decide, by decide, C7_getter_is_minmax (-1) (by decide) (by decide)⟩

/-- Counterexample for C7 as stated.  The raw value `-1` lies within distance
`1/2` of the hardware midpoint `(AXIS_MIN + AXIS_MAX) / 2 = -1/2`, hence
inside every deadzone band centered on the midpoint, yet the getter returns
1499, not the idle baseline 1500: no deadzone clamp exists in the code. -/
theorem C7_counterexample :
    axisGet (-1) = 1499 ∧ idleValue = 1500 ∧
    |(-1:ℚ) - ((AXIS_MIN:ℚ) + (AXIS_MAX:ℚ)) / 2| ≤ 1 := by
  refine ⟨?_, ?_, ?_⟩
  · norm_num [axisGet, normalise, pyInt, AXIS_MIN, AXIS_MAX, axisGoalMin,
      axisGoalMax]
  · norm_num [idleValue, normalise, pyInt, AXIS_MIN, AXIS_MAX, axisGoalMin,
      axisGoalMax]
  · norm_num [AXIS_MIN, AXIS_MAX, abs_le]

/-! ## Claims about the video stream -/

lemma flatten_ne_nil {cs : List (List Nat)} (hne : ∀ c ∈ cs, c ≠ [])
    (h : cs ≠ []) : cs.flatten ≠ [] := by
  intro hf
  rcases cs with _ | ⟨c, tl⟩
  · exact h rfl
  · exact hne c (by simp) (List.flatten_eq_nil_iff.mp hf c (by simp))

/-- Running the frame handler over a chunked split of `payload ++ marker`:
as long as no intermediate accumulated prefix ends with the marker, every
intermediate step just accumulates, and the final step emits the payload as
the decoded frame and resets the buffer. -/
lemma handleChunks_aux (payload : List Nat) (hp : payload ≠ [])
    (hmid : ∀ k, k < (payload ++ endPayload).length →
      ¬ endPayload.isSuffixOf ((payload ++ endPayload).take k) = true) :
    ∀ (chunks : List (List Nat)) (acc : List Nat) (f0 : Option (List Nat)),
      acc ++ chunks.flatten = payload ++ endPayload →
      chunks ≠ [] → (∀ c ∈ chunks, c ≠ []) →
      handleChunks ⟨acc, f0⟩ chunks = .ok ⟨[], some payload⟩ := by
  intro chunks
  induction chunks with
  | nil =>
    intro acc f0 _ hne _
    exact absurd rfl hne
  | cons c cs ih =>
    intro acc f0 hjoin _ hcne
    have hcnil : c ≠ [] := hcne c (by simp)
    rcases cs with _ | ⟨c2, cs2⟩
    · have hbuf : acc ++ c = payload ++ endPayload := by simpa using hjoin
      have hnn : ¬ (payload ++ endPayload = []) := by simp [endPayload]
      have hsuf : endPayload.isSuffixOf (payload ++ endPayload) = true := by
        rw [List.isSuffixOf_iff_suffix]
        exact List.suffix_append payload endPayload
      have htake : (payload ++ endPayload).take
          ((payload ++ endPayload).length - endPayload.length) = payload := by
        rw [List.length_append, Nat.add_sub_cancel]
        exact List.take_left payload endPayload
      rw [handleChunks, handleData]
      simp only [hbuf, htake]
      rw [if_neg hnn, if_pos hsuf, if_pos hnn, if_neg hp]
      rfl
    · have htot : (acc ++ c) ++ (c2 :: cs2).flatten = payload ++ endPayload := by
        simpa [List.append_assoc] using hjoin
      have hfne : (c2 :: cs2).flatten ≠ [] :=
        flatten_ne_nil (fun u hu => hcne u (by simp [hu])) (by simp)
      have hk : (acc ++ c).length < (payload ++ endPayload).length := by
        rw [← htot]
        have := List.length_pos.mpr hfne
        simp only [List.length_append]
        omega
      have htake : (payload ++ endPayload).take (acc ++ c).length = acc ++ c := by
        rw [← htot]
        exact List.take_left' rfl
      have hnosuf : ¬ endPayload.isSuffixOf (acc ++ c) = true := by
        have := hmid _ hk
        rwa [htake] at this
      have hbne : ¬ (acc ++ c = []) := by simp [hcnil]
      have hstep : handleData ⟨acc, f0⟩ c = .ok ⟨acc ++ c, f0⟩ := by
        rw [handleData]
        rw [if_neg hbne, if_neg hnosuf]
      rw [handleChunks, hstep]
      exact ih (acc ++ c) f0 htot (by simp)
        (fun u hu => hcne u (by simp [hu]))

/-- Claim C8, amended.  Provided the payload is nonempty and the sentinel is
not a suffix of any proper prefix of `payload ++ sentinel`, feeding the
stream in arbitrary nonempty chunks yields exactly the same result as one
single receive: the payload is decoded as the frame and the buffer is empty
immediately afterward.  (Without the proviso the equivalence fails, see the
counterexample.) -/
theorem C8_split_equivalence (payload : List Nat) (f0 : Option (List Nat))
    (chunks : List (List Nat)) (hp : payload ≠ [])
    (hmid : ∀ k, k < (payload ++ endPayload).length →
      ¬ endPayload.isSuffixOf ((payload ++ endPayload).take k) = true)
    (hjoin : chunks.flatten = payload ++ endPayload)
    (hcne : ∀ c ∈ chunks, c ≠ []) :
    handleChunks ⟨[], f0⟩ chunks = .ok ⟨[], some payload⟩ ∧
    handleData ⟨[], f0⟩ (payload ++ endPayload) = .ok ⟨[], some payload⟩ := by
  have hne : chunks ≠ [] := by
    intro h
    rw [h] at hjoin
    exact (by simp [endPayload] : ¬ (payload ++ endPayload = [])) hjoin.symm
  constructor
  · exact handleChunks_aux payload hp hmid chunks [] f0 (by simpa using hjoin)
      hne hcne
  · have hone := handleChunks_aux payload hp hmid [payload ++ endPayload] [] f0
      (by simp) (by simp) (by simp [endPayload])
    rw [handleChunks] at hone
    cases hd : handleData ⟨[], f0⟩ (payload ++ endPayload) with
    | error e =>
      rw [hd] at hone
      simp at hone
    | ok st2 =>
      rw [hd] at hone
      simp only [handleChunks] at hone
      exact hone

/-- Witness for C8 (amended): payload `[65]` split as `[[65], sentinel]`. -/
theorem C8_witness :
    (([65] : List Nat) ≠ [] ∧
      (∀ k, k < (([65] : List Nat) ++ endPayload).length →
        ¬ endPayload.isSuffixOf ((([65] : List Nat) ++ endPayload).take k) = true) ∧
      [[65], endPayload].flatten = ([65] : List Nat) ++ endPayload ∧
      (∀ c ∈ [[(65:Nat)], endPayload], c ≠ [])) ∧
    handleChunks ⟨[], none⟩ [[65], endPayload] = .ok ⟨[], some [65]⟩ ∧
    handleData ⟨[], none⟩ (([65] : List Nat) ++ endPayload) =
      .ok ⟨[], some [65]⟩ := by
  have h1 : ([65] : List Nat) ≠ [] := by decide
  have h2 : ∀ k, k < (([65] : List Nat) ++ endPayload).length →
      ¬ endPayload.isSuffixOf ((([65] : List Nat) ++ endPayload).take k) = true := by
    decide
  have h3 : [[65], endPayload].flatten = ([65] : List Nat) ++ endPayload := rfl
  have h4 : ∀ c ∈ [[(65:Nat)], endPayload], c ≠ [] := by decide
  exact ⟨⟨h1, h2, h3, h4⟩, C8_split_equivalence [65] none [[65], endPayload] h1 h2 h3 h4⟩

/-- Counterexample for C8 as stated.  Take the payload to be the sentinel
bytes themselves (an arbitrary byte string is allowed).  Receiving
`payload ++ sentinel` in one call decodes the payload as a frame, but the
byte-wise split `[sentinel, sentinel]` of the same stream makes the tail
check fire after the first chunk with an empty pre-marker slice, which sends
the empty byte string to the unpickler: the two splits do not yield the same
frame (the second does not yield a frame at all — it raises). -/
theorem C8_counterexample :
    handleChunks ⟨[], none⟩ [endPayload ++ endPayload] =
      Except.ok ⟨[], some endPayload⟩ ∧
    handleChunks ⟨[], none⟩ [endPayload, endPayload] =
      Except.error VSErr.eofError ∧
    [endPayload, endPayload].flatten = [endPayload ++ endPayload].flatten :=
  ⟨rfl, rfl, rfl⟩

/-- Claim C9 (code bug witness).  When the buffer consists of exactly the
sentinel (empty payload), the tail check fires but the code passes the empty
byte string to `dill.loads` — because the guard tests the whole buffer
instead of the pre-marker slice, whose emptiness it should test — and
`dill.loads` of an empty byte string raises `EOFError`, which no handler
catches; the frame is not set to null and no acknowledgement is sent. -/
theorem C9_empty_frame_crash :
    endPayload.isSuffixOf endPayload = true ∧
    handleData ⟨[], none⟩ endPayload = Except.error VSErr.eofError :=
  ⟨rfl, rfl⟩

end Surface
